import Mathlib

/-!
Verification of the event-listing application core.

This file gives a shallow embedding of the logic of the repository:
the event slug-generation and date/time normalization pipeline (the
Mongoose pre-validate hook of the Event schema), the comma-delimited
list coercion performed by the events POST route, the connection cache
(dbConnect), the booking pre-save referential check, and the optional
test-event cleanup in the POST route.  Strings are modelled with Lean
String over its underlying character list; the database is modelled as
the list of stored slugs; effectful steps (the network dial of
dbConnect, the existence lookup of the booking hook) are passed in as
explicit outcome parameters, with the number of initiated network
dials returned so that absence of a network attempt is provable.
-/

/-! ### Character helpers (models of the JS character classes used) -/

/-- Model of the JS whitespace class for the ASCII range: space, tab,
newline, carriage return, vertical tab, form feed. -/
def jsIsSpace (c : Char) : Bool :=
  c == ' ' || c == '\t' || c == '\n' || c == '\r' || c == '\x0b' || c == '\x0c'

/-- Model of the JS regex class backslash-w: ASCII letters, digits and
underscore. -/
def isWordChar (c : Char) : Bool :=
  ('a' ≤ c && c ≤ 'z') || ('A' ≤ c && c ≤ 'Z') || ('0' ≤ c && c ≤ '9') || c == '_'

/-- JS String.prototype.trim, on the character list: drop leading and
trailing whitespace. -/
def jsTrim (l : List Char) : List Char :=
  ((l.dropWhile jsIsSpace).reverse.dropWhile jsIsSpace).reverse

/-- Decimal digit character for a digit value 0 to 9. -/
def digitChar (n : Nat) : Char :=
  match n with
  | 0 => '0' | 1 => '1' | 2 => '2' | 3 => '3' | 4 => '4'
  | 5 => '5' | 6 => '6' | 7 => '7' | 8 => '8' | _ => '9'

/-- Numeric value of a decimal digit character. -/
def digitVal (c : Char) : Nat := c.toNat - 48

/-- Decimal rendering of a natural number (model of JS number-to-string
conversion in a template literal), with fuel for structural recursion. -/
def natReprAux : Nat → Nat → List Char
  | 0, _ => []
  | fuel + 1, n =>
    if n < 10 then [digitChar n]
    else natReprAux fuel (n / 10) ++ [digitChar (n % 10)]

/-- Decimal rendering of a natural number as a string. -/
def natRepr (n : Nat) : String := String.mk (natReprAux (n + 1) n)

/-- Value of a decimal digit string (used only to prove `natRepr`
injective by a round trip). -/
def decVal (l : List Char) : Nat := l.foldl (fun a c => a * 10 + digitVal c) 0

theorem digitVal_digitChar {d : Nat} (h : d ≤ 9) : digitVal (digitChar d) = d := by
  interval_cases d <;> rfl

theorem decVal_append_digit (l : List Char) (c : Char) :
    decVal (l ++ [c]) = decVal l * 10 + digitVal c := by
  simp [decVal, List.foldl_append]

theorem decVal_natReprAux : ∀ fuel n, n < fuel → decVal (natReprAux fuel n) = n := by
  intro fuel
  induction fuel with
  | zero => intro n h; omega
  | succ f ih =>
    intro n h
    by_cases h10 : n < 10
    · simp only [natReprAux, if_pos h10, decVal, List.foldl_cons, List.foldl_nil]
      rw [digitVal_digitChar (by omega)]
      omega
    · have hdiv : n / 10 < n := Nat.div_lt_self (by omega) (by omega)
      have hrec : n / 10 < f := by omega
      have hmod : n % 10 ≤ 9 := by omega
      simp only [natReprAux, if_neg h10]
      rw [decVal_append_digit, ih _ hrec, digitVal_digitChar hmod]
      omega

theorem decVal_natRepr (n : Nat) : decVal (natRepr n).data = n :=
  decVal_natReprAux (n + 1) n (Nat.lt_succ_self n)

theorem natRepr_inj {a b : Nat} (h : natRepr a = natRepr b) : a = b := by
  have hd : (natRepr a).data = (natRepr b).data := congrArg String.data h
  have := decVal_natRepr a
  rw [hd, decVal_natRepr b] at this
  omega

theorem natRepr_ne_nil (n : Nat) : (natRepr n).data ≠ [] := by
  show natReprAux (n + 1) n ≠ []
  by_cases h10 : n < 10
  · simp [natReprAux, if_pos h10]
  · simp [natReprAux, if_neg h10]

/-! ### Slug generation

Model of the slugify closure in the pre-validate hook of the Event
schema: lowercase, trim, strip characters outside word chars,
whitespace and hyphens, collapse whitespace runs to single hyphens,
collapse hyphen runs, strip one leading and one trailing hyphen. -/

/-- Characters kept by the replacement of `[^\w\s-]` with the empty
string. -/
def slugAllowed (c : Char) : Bool := isWordChar c || jsIsSpace c || c == '-'

/-- Replace every maximal run of whitespace by a single hyphen
(the replacement of `\s+` by a hyphen). -/
def squashSpaces : List Char → List Char
  | [] => []
  | [c] => if jsIsSpace c then ['-'] else [c]
  | c1 :: c2 :: cs =>
    if jsIsSpace c1 && jsIsSpace c2 then squashSpaces (c2 :: cs)
    else (if jsIsSpace c1 then '-' else c1) :: squashSpaces (c2 :: cs)

/-- Collapse every run of hyphens to a single hyphen (the replacement
of a hyphen run by one hyphen). -/
def squashHyphens : List Char → List Char
  | [] => []
  | [c] => [c]
  | c1 :: c2 :: cs =>
    if c1 == '-' && c2 == '-' then squashHyphens (c2 :: cs)
    else c1 :: squashHyphens (c2 :: cs)

/-- Drop a single leading hyphen if present. -/
def dropLeadingHyphen : List Char → List Char
  | '-' :: cs => cs
  | l => l

/-- The global replacement of a leading or trailing hyphen by the
empty string: one leading hyphen is removed, then one trailing hyphen
of the remainder. -/
def stripEdgeHyphens (l : List Char) : List Char :=
  (dropLeadingHyphen (dropLeadingHyphen l).reverse).reverse

/-- The slugify closure of the pre-validate hook, stated on the
underlying character list of the title. -/
def slugify (s : String) : String :=
  String.mk (stripEdgeHyphens (squashHyphens (squashSpaces
    ((jsTrim (s.data.map Char.toLower)).filter slugAllowed))))

/-- The sequence of candidate slugs the uniqueness loop tries for a
given base: the bare base (or the literal fallback for an empty base)
first, then base-1, base-2, and so on.  The suffixed candidates are
built from the base itself, exactly as the template literal in the
source does. -/
def slugCandidate (base : String) : Nat → String
  | 0 => if base = "" then "event" else base
  | k + 1 => base ++ "-" ++ natRepr (k + 1)

/-- The uniqueness-resolution loop of the pre-validate hook: check
whether the candidate already exists, and if so append an incremented
counter to the base and recheck.  The source loop is unbounded; it is
given fuel here, and the callers pass enough fuel for every reachable
state (one more than the database size always suffices because the
candidates are pairwise distinct). -/
def resolveSlugAux (db : List String) (base : String) : Nat → Nat → String → Option String
  | 0, _, _ => none
  | fuel + 1, counter, candidate =>
    if candidate ∈ db then
      resolveSlugAux db base fuel (counter + 1) (base ++ "-" ++ natRepr (counter + 1))
    else some candidate

/-- Slug assignment of the pre-validate hook: derive the base from the
title, fall back to the literal "event" when the base is empty, then
resolve uniqueness against the stored slugs. -/
def assignSlug (db : List String) (title : String) : Option String :=
  resolveSlugAux db (slugify title) (db.length + 1) 0
    (if slugify title = "" then "event" else slugify title)

/-- One Event creation, projected to the slug pipeline: assign the
slug, then insert the record (its slug) into the store. -/
def createEvent (db : List String) (title : String) : Option (String × List String) :=
  (assignSlug db title).map (fun slug => (slug, db ++ [slug]))

/-- A sequence of Event creations, returning the list of assigned
slugs. -/
def createSeq : List String → List String → Option (List String)
  | _, [] => some []
  | db, t :: ts =>
    match createEvent db t with
    | none => none
    | some (s, dbNext) => (createSeq dbNext ts).map (fun rest => s :: rest)

/-! ### Properties of the candidate sequence and the uniqueness loop -/

theorem slugCandidate_succ_data (base : String) (k : Nat) :
    (slugCandidate base (k + 1)).data = base.data ++ '-' :: (natRepr (k + 1)).data := by
  show ((base ++ "-") ++ natRepr (k + 1)).data = _
  rw [String.data_append, String.data_append]
  simp

theorem slugCandidate_inj (base : String) {i j : Nat}
    (h : slugCandidate base i = slugCandidate base j) : i = j := by
  match i, j with
  | 0, 0 => rfl
  | 0, k + 1 =>
    exfalso
    have hd := congrArg String.data h
    rw [slugCandidate_succ_data] at hd
    by_cases hb : base = ""
    · rw [show slugCandidate base 0 = "event" by simp [slugCandidate, hb], hb] at hd
      simp at hd
    · rw [show slugCandidate base 0 = base by simp [slugCandidate, hb]] at hd
      have := congrArg List.length hd
      simp at this
  | k + 1, 0 =>
    exfalso
    have hd := congrArg String.data h
    rw [slugCandidate_succ_data] at hd
    by_cases hb : base = ""
    · rw [show slugCandidate base 0 = "event" by simp [slugCandidate, hb], hb] at hd
      simp at hd
    · rw [show slugCandidate base 0 = base by simp [slugCandidate, hb]] at hd
      have := congrArg List.length hd
      simp at this
  | a + 1, b + 1 =>
    have hd := congrArg String.data h
    rw [slugCandidate_succ_data, slugCandidate_succ_data] at hd
    have hlist : (natRepr (a + 1)).data = (natRepr (b + 1)).data := by
      have := List.append_cancel_left hd
      exact List.tail_eq_of_cons_eq this
    have : natRepr (a + 1) = natRepr (b + 1) := congrArg String.mk hlist
    have := natRepr_inj this
    omega

theorem resolveSlugAux_reaches (db : List String) (base : String) :
    ∀ fuel i j, i ≤ j → (∀ m, i ≤ m → m < j → slugCandidate base m ∈ db) →
      slugCandidate base j ∉ db → j - i < fuel →
      resolveSlugAux db base fuel i (slugCandidate base i) = some (slugCandidate base j) := by
  intro fuel
  induction fuel with
  | zero => intro i j _ _ _ hf; omega
  | succ f ih =>
    intro i j hij hmem hnot hf
    by_cases hin : slugCandidate base i ∈ db
    · have hlt : i < j := by
        rcases Nat.lt_or_ge i j with hx | hx
        · exact hx
        · have heq : i = j := by omega
          rw [heq] at hin
          exact absurd hin hnot
      simp only [resolveSlugAux, if_pos hin]
      have hc : base ++ "-" ++ natRepr (i + 1) = slugCandidate base (i + 1) := rfl
      rw [hc]
      exact ih (i + 1) j hlt (fun m h1 h2 => hmem m (by omega) h2) hnot (by omega)
    · have hieq : i = j := by
        by_contra hne
        exact hin (hmem i (Nat.le_refl i) (by omega))
      rw [hieq] at hin ⊢
      simp only [resolveSlugAux, if_neg hin]

theorem createSeq_spec (base : String) (db0 : List String)
    (hfresh : ∀ k, slugCandidate base k ∉ db0) :
    ∀ (titles : List String) (j : Nat), (∀ t ∈ titles, slugify t = base) →
      createSeq (db0 ++ (List.range j).map (slugCandidate base)) titles
        = some ((List.range' j titles.length).map (slugCandidate base)) := by
  intro titles
  induction titles with
  | nil => intro j _; rfl
  | cons t ts ih =>
    intro j hall
    have hbase : slugify t = base := hall t (by simp)
    have hmem : ∀ m, 0 ≤ m → m < j →
        slugCandidate base m ∈ db0 ++ (List.range j).map (slugCandidate base) := by
      intro m _ h2
      exact List.mem_append_right _ (List.mem_map_of_mem _ (List.mem_range.2 h2))
    have hnot : slugCandidate base j ∉ db0 ++ (List.range j).map (slugCandidate base) := by
      intro hmemj
      rcases List.mem_append.1 hmemj with hl | hr
      · exact hfresh j hl
      · rcases List.mem_map.1 hr with ⟨m, hm, heq⟩
        have := slugCandidate_inj base heq
        rw [this] at hm
        exact absurd (List.mem_range.1 hm) (Nat.lt_irrefl j)
    have hfuel : j - 0 < (db0 ++ (List.range j).map (slugCandidate base)).length + 1 := by
      simp [List.length_append]
      omega
    have hassign : assignSlug (db0 ++ (List.range j).map (slugCandidate base)) t
        = some (slugCandidate base j) := by
      unfold assignSlug
      rw [hbase]
      have hstart : (if base = "" then "event" else base) = slugCandidate base 0 := rfl
      rw [hstart]
      exact resolveSlugAux_reaches _ base _ 0 j (Nat.zero_le j) hmem hnot hfuel
    have hdb : (db0 ++ (List.range j).map (slugCandidate base)) ++ [slugCandidate base j]
        = db0 ++ (List.range (j + 1)).map (slugCandidate base) := by
      rw [List.append_assoc, List.range_succ, List.map_append]
      rfl
    have hcreate : createEvent (db0 ++ (List.range j).map (slugCandidate base)) t
        = some (slugCandidate base j,
            db0 ++ (List.range (j + 1)).map (slugCandidate base)) := by
      unfold createEvent
      rw [hassign, Option.map_some', hdb]
    simp only [createSeq, hcreate]
    rw [ih (j + 1) (fun x hx => hall x (List.mem_cons_of_mem t hx))]
    rw [show (t :: ts).length = ts.length + 1 from rfl, List.range'_succ]
    rfl

/-- C1: for every sequence of Event creations whose titles all derive the same
non-empty base slug, starting from a store holding none of the candidate
slugs, the first creation is assigned the bare base slug and the N-th
colliding creation is assigned base-N with N counting up from 1 (second
creation base-1, third base-2, and so on); the loop repeatedly checks whether
the candidate slug already exists and stops at the first free candidate. -/
theorem c1_slug_collision_counter (base : String) (titles db0 : List String)
    (hbase : base ≠ "")
    (htitles : ∀ t ∈ titles, slugify t = base)
    (hfresh : ∀ k, slugCandidate base k ∉ db0) :
    createSeq db0 titles
      = some ((List.range titles.length).map (fun k =>
          if k = 0 then base else base ++ "-" ++ natRepr k)) := by
  have h := createSeq_spec base db0 hfresh titles 0 htitles
  simp only [List.range_zero, List.map_nil, List.append_nil] at h
  rw [h]
  congr 1
  rw [← List.range_eq_range']
  apply List.map_congr_left
  intro k _
  match k with
  | 0 => simp [slugCandidate, hbase]
  | k + 1 => simp [slugCandidate]

theorem c1_witness :
    ("dev-meetup" : String) ≠ "" ∧
    createSeq [] ["Dev Meetup", "Dev   Meetup!", "dev meetup"]
      = some ["dev-meetup", "dev-meetup-1", "dev-meetup-2"] := by
  refine ⟨by decide, ?_⟩
  have h := c1_slug_collision_counter "dev-meetup"
    ["Dev Meetup", "Dev   Meetup!", "dev meetup"] []
    (by decide) (by decide) (fun k => List.not_mem_nil _)
  rw [h]
  decide

/-- C2 counterexample: the title of only punctuation normalizes to the empty
base, and with the fallback slug "event" already stored the colliding
creation is assigned "-1" (the suffix template uses the empty base), not
"event-1" as the claim states. -/
theorem c2_counterexample :
    slugify "!!!" = "" ∧ assignSlug ["event"] "!!!" = some "-1" ∧
      ("-1" : String) ≠ "event-1" := by
  decide

/-- C2 amended: for every sequence of Event creations whose titles normalize
to an empty base slug, starting from a store holding none of the candidate
slugs, the first creation is assigned the literal fallback "event", and the
N-th colliding creation is assigned "-N" (hyphen followed by the counter,
built from the empty base), not "event-N". -/
theorem c2_empty_base_fallback (titles db0 : List String)
    (htitles : ∀ t ∈ titles, slugify t = "")
    (hfresh : ∀ k, slugCandidate "" k ∉ db0) :
    createSeq db0 titles
      = some ((List.range titles.length).map (fun k =>
          if k = 0 then "event" else "-" ++ natRepr k)) := by
  have h := createSeq_spec "" db0 hfresh titles 0 htitles
  simp only [List.range_zero, List.map_nil, List.append_nil] at h
  rw [h]
  congr 1
  rw [← List.range_eq_range']
  apply List.map_congr_left
  intro k _
  match k with
  | 0 => simp [slugCandidate]
  | k + 1 =>
    show "" ++ "-" ++ natRepr (k + 1) = (if k + 1 = 0 then "event" else "-" ++ natRepr (k + 1))
    rw [if_neg (by omega), show ("" ++ "-" : String) = "-" from by decide]

theorem c2_witness :
    createSeq [] ["!!!", "???"] = some ["event", "-1"] := by
  have h := c2_empty_base_fallback ["!!!", "???"] [] (by decide) (fun k => List.not_mem_nil _)
  rw [h]
  decide

/-! ### Time normalization

Model of the time step of the pre-validate hook: the anchored regex
accepting a one or two digit hour from 0 to 23 followed by a colon and
a two digit minute from 00 to 59, then a split on the colon and a zero
pad of the hour part to two characters. -/

def isDigitCh (c : Char) : Bool :=
  c == '0' || c == '1' || c == '2' || c == '3' || c == '4' ||
  c == '5' || c == '6' || c == '7' || c == '8' || c == '9'

def isMinuteTensCh (c : Char) : Bool :=
  c == '0' || c == '1' || c == '2' || c == '3' || c == '4' || c == '5'

def isZeroOneCh (c : Char) : Bool := c == '0' || c == '1'

def isZeroToThreeCh (c : Char) : Bool := c == '0' || c == '1' || c == '2' || c == '3'

/-- The anchored time regex: a single digit hour, or a two digit hour
starting with 0 or 1, or 2 followed by 0 to 3; then a colon, a minute
tens digit 0 to 5 and a minute units digit. -/
def timeRegexTest (l : List Char) : Bool :=
  match l with
  | [h1, c, m1, m2] => c == ':' && isDigitCh h1 && isMinuteTensCh m1 && isDigitCh m2
  | [h1, h2, c, m1, m2] =>
      c == ':' &&
      ((isZeroOneCh h1 && isDigitCh h2) || (h1 == '2' && isZeroToThreeCh h2)) &&
      isMinuteTensCh m1 && isDigitCh m2
  | _ => false

/-- JS String.prototype.split with a single character separator. -/
def splitOnChar (sep : Char) : List Char → List (List Char)
  | [] => [[]]
  | c :: cs =>
    if c == sep then [] :: splitOnChar sep cs
    else
      match splitOnChar sep cs with
      | [] => [[c]]
      | seg :: rest => (c :: seg) :: rest

/-- JS String.prototype.padStart with target length 2 and pad
character 0. -/
def padStart2 (l : List Char) : List Char :=
  if 2 ≤ l.length then l else List.replicate (2 - l.length) '0' ++ l

/-- Time step of the pre-validate hook: reject when the regex does not
match, otherwise split on the colon and re-store with the hour part
zero-padded to two digits. -/
def normalizeTime (s : String) : Option String :=
  if timeRegexTest s.data then
    match splitOnChar ':' s.data with
    | [hours, minutes] => some (String.mk (padStart2 hours ++ ':' :: minutes))
    | _ => none
  else none

/-! ### Date normalization

Model of the date step of the pre-validate hook: the anchored regex
for YYYY-MM-DD with month 01 to 12 and day 01 to 31, then the UTC
reconstruction check, then re-storing the matched string. -/

def isNonzeroDigitCh (c : Char) : Bool :=
  c == '1' || c == '2' || c == '3' || c == '4' || c == '5' ||
  c == '6' || c == '7' || c == '8' || c == '9'

def isOneTwoCh (c : Char) : Bool := c == '1' || c == '2'

def isZeroToTwoCh (c : Char) : Bool := c == '0' || c == '1' || c == '2'

/-- Month alternation of the date regex: 0 then 1 to 9, or 1 then 0 to 2. -/
def monthCond (m1 m2 : Char) : Bool :=
  (m1 == '0' && isNonzeroDigitCh m2) || (m1 == '1' && isZeroToTwoCh m2)

/-- Day alternation of the date regex: 0 then 1 to 9, or 1 or 2 then a
digit, or 3 then 0 or 1. -/
def dayCond (d1 d2 : Char) : Bool :=
  (d1 == '0' && isNonzeroDigitCh d2) || (isOneTwoCh d1 && isDigitCh d2) ||
  (d1 == '3' && isZeroOneCh d2)

/-- The anchored date regex together with the parseInt calls on its
three capture groups: a ten character match yields the numeric year,
month and day. -/
def dateRegexParse (l : List Char) : Option (Nat × Nat × Nat) :=
  match l with
  | [y1, y2, y3, y4, s1, m1, m2, s2, d1, d2] =>
    if s1 == '-' && s2 == '-' && isDigitCh y1 && isDigitCh y2 && isDigitCh y3 &&
        isDigitCh y4 && monthCond m1 m2 && dayCond d1 d2 then
      some (digitVal y1 * 1000 + digitVal y2 * 100 + digitVal y3 * 10 + digitVal y4,
            digitVal m1 * 10 + digitVal m2,
            digitVal d1 * 10 + digitVal d2)
    else none
  | _ => none

/-- Proleptic Gregorian leap year rule, as implemented by the JS Date. -/
def isLeapYear (y : Nat) : Bool := y % 4 == 0 && (y % 100 != 0 || y % 400 == 0)

/-- Number of days of a month in a given year. -/
def daysInMonth (y m : Nat) : Nat :=
  if m == 2 then (if isLeapYear y then 29 else 28)
  else if m == 4 || m == 6 || m == 9 || m == 11 then 30
  else 31

/-- The ECMAScript two digit year rule of Date.UTC: year arguments 0
to 99 denote 1900 plus the value. -/
def utcFullYear (y : Nat) : Nat := if y ≤ 99 then 1900 + y else y

/-- Model of the ECMAScript Date.UTC reconstruction followed by the
getUTCFullYear, getUTCMonth and getUTCDate reads, restricted to the
component ranges the date regex guarantees (month 1 to 12, day 1 to
31): a day count beyond the month length rolls over into the following
month; such arguments never produce NaN, so the isNaN branch of the
source is vacuous here. -/
def utcReconstruct (fy m d : Nat) : Nat × Nat × Nat :=
  if d ≤ daysInMonth fy m then (fy, m, d)
  else if m = 12 then (fy + 1, 1, d - 31)
  else (fy, m + 1, d - daysInMonth fy m)

/-- Date step of the pre-validate hook: reject when the regex does not
match; otherwise reconstruct the parsed components as a UTC calendar
date and reject unless the reconstructed year, month and day all equal
the parsed input; on success re-store the matched string unchanged. -/
def normalizeDate (s : String) : Option String :=
  match dateRegexParse s.data with
  | none => none
  | some (y, m, d) =>
    let r := utcReconstruct (utcFullYear y) m d
    if r.1 = y ∧ r.2.1 = m ∧ r.2.2 = d then some s else none

/-- The whole pre-validate hook on a freshly created Event (all fields
count as modified on creation): slug assignment, then date
normalization, then time normalization; any validation failure aborts
the creation. -/
def eventPreValidate (db : List String) (title date time : String) :
    Option (String × String × String) :=
  match assignSlug db title, normalizeDate date, normalizeTime time with
  | some slug, some d, some t => some (slug, d, t)
  | _, _, _ => none

/-- Two digit zero padded decimal rendering, for values below 100. -/
def twoDigits (n : Nat) : List Char := [digitChar (n / 10), digitChar (n % 10)]

/-- The hour part of a canonical time input: one digit below ten,
two digits otherwise. -/
def hourChars (h : Nat) : List Char := if h < 10 then [digitChar h] else twoDigits h

/-- Canonical rendering of a date with a four digit year. -/
def renderDate (y m d : Nat) : String :=
  String.mk ([digitChar (y / 1000 % 10), digitChar (y / 100 % 10),
    digitChar (y / 10 % 10), digitChar (y % 10), '-'] ++ twoDigits m ++ '-' :: twoDigits d)

/-- C3 counterexample: creating an Event with title "Cloud Next 2026!", date
"2026-03-10" and time "9:5" does not succeed: the time regex requires a two
digit minute, so validation rejects the candidate instead of persisting it. -/
theorem c3_counterexample :
    normalizeTime "9:5" = none ∧
    eventPreValidate [] "Cloud Next 2026!" "2026-03-10" "9:5" = none := by
  decide

/-- C3 amended: with the time written with a two digit minute, "9:05", the
creation succeeds and the persisted record has slug "cloud-next-2026", date
"2026-03-10" and time "09:05" (the hour is zero padded). -/
theorem c3_amended_scenario :
    eventPreValidate [] "Cloud Next 2026!" "2026-03-10" "9:05"
      = some ("cloud-next-2026", "2026-03-10", "09:05") := by
  decide

/-! ### Digit-class lemmas for the regex proofs -/

theorem isDigitCh_elim {c : Char} (h : isDigitCh c = true) :
    ∃ d, d ≤ 9 ∧ c = digitChar d := by
  simp only [isDigitCh, Bool.or_eq_true, beq_iff_eq] at h
  rcases h with (((((((((h|h)|h)|h)|h)|h)|h)|h)|h)|h) <;> subst h
  exacts [⟨0, by omega, rfl⟩, ⟨1, by omega, rfl⟩, ⟨2, by omega, rfl⟩, ⟨3, by omega, rfl⟩,
    ⟨4, by omega, rfl⟩, ⟨5, by omega, rfl⟩, ⟨6, by omega, rfl⟩, ⟨7, by omega, rfl⟩,
    ⟨8, by omega, rfl⟩, ⟨9, by omega, rfl⟩]

theorem isMinuteTensCh_elim {c : Char} (h : isMinuteTensCh c = true) :
    ∃ d, d ≤ 5 ∧ c = digitChar d := by
  simp only [isMinuteTensCh, Bool.or_eq_true, beq_iff_eq] at h
  rcases h with (((((h|h)|h)|h)|h)|h) <;> subst h
  exacts [⟨0, by omega, rfl⟩, ⟨1, by omega, rfl⟩, ⟨2, by omega, rfl⟩, ⟨3, by omega, rfl⟩,
    ⟨4, by omega, rfl⟩, ⟨5, by omega, rfl⟩]

theorem isZeroOneCh_elim {c : Char} (h : isZeroOneCh c = true) :
    ∃ d, d ≤ 1 ∧ c = digitChar d := by
  simp only [isZeroOneCh, Bool.or_eq_true, beq_iff_eq] at h
  rcases h with (h|h) <;> subst h
  exacts [⟨0, by omega, rfl⟩, ⟨1, by omega, rfl⟩]

theorem isZeroToThreeCh_elim {c : Char} (h : isZeroToThreeCh c = true) :
    ∃ d, d ≤ 3 ∧ c = digitChar d := by
  simp only [isZeroToThreeCh, Bool.or_eq_true, beq_iff_eq] at h
  rcases h with (((h|h)|h)|h) <;> subst h
  exacts [⟨0, by omega, rfl⟩, ⟨1, by omega, rfl⟩, ⟨2, by omega, rfl⟩, ⟨3, by omega, rfl⟩]

theorem isNonzeroDigitCh_elim {c : Char} (h : isNonzeroDigitCh c = true) :
    ∃ d, 1 ≤ d ∧ d ≤ 9 ∧ c = digitChar d := by
  simp only [isNonzeroDigitCh, Bool.or_eq_true, beq_iff_eq] at h
  rcases h with ((((((((h|h)|h)|h)|h)|h)|h)|h)|h) <;> subst h
  exacts [⟨1, by omega, by omega, rfl⟩, ⟨2, by omega, by omega, rfl⟩,
    ⟨3, by omega, by omega, rfl⟩, ⟨4, by omega, by omega, rfl⟩, ⟨5, by omega, by omega, rfl⟩,
    ⟨6, by omega, by omega, rfl⟩, ⟨7, by omega, by omega, rfl⟩, ⟨8, by omega, by omega, rfl⟩,
    ⟨9, by omega, by omega, rfl⟩]

theorem isOneTwoCh_elim {c : Char} (h : isOneTwoCh c = true) :
    ∃ d, 1 ≤ d ∧ d ≤ 2 ∧ c = digitChar d := by
  simp only [isOneTwoCh, Bool.or_eq_true, beq_iff_eq] at h
  rcases h with (h|h) <;> subst h
  exacts [⟨1, by omega, by omega, rfl⟩, ⟨2, by omega, by omega, rfl⟩]

theorem isZeroToTwoCh_elim {c : Char} (h : isZeroToTwoCh c = true) :
    ∃ d, d ≤ 2 ∧ c = digitChar d := by
  simp only [isZeroToTwoCh, Bool.or_eq_true, beq_iff_eq] at h
  rcases h with ((h|h)|h) <;> subst h
  exacts [⟨0, by omega, rfl⟩, ⟨1, by omega, rfl⟩, ⟨2, by omega, rfl⟩]

theorem isDigitCh_digitChar {d : Nat} (h : d ≤ 9) : isDigitCh (digitChar d) = true := by
  interval_cases d <;> decide

theorem isMinuteTensCh_digitChar {d : Nat} (h : d ≤ 5) :
    isMinuteTensCh (digitChar d) = true := by
  interval_cases d <;> decide

theorem isZeroOneCh_digitChar {d : Nat} (h : d ≤ 1) : isZeroOneCh (digitChar d) = true := by
  interval_cases d <;> decide

theorem isZeroToThreeCh_digitChar {d : Nat} (h : d ≤ 3) :
    isZeroToThreeCh (digitChar d) = true := by
  interval_cases d <;> decide

theorem digitChar_beq_colon (d : Nat) : (digitChar d == ':') = false := by
  unfold digitChar
  split <;> decide

theorem stringMk_data (l : List Char) : (String.mk l).data = l := rfl

theorem splitOnChar_colon_single {a b c : Char} (ha : (a == ':') = false)
    (hb : (b == ':') = false) (hc : (c == ':') = false) :
    splitOnChar ':' [a, ':', b, c] = [[a], [b, c]] := by
  simp [splitOnChar, ha, hb, hc]

theorem splitOnChar_colon_double {a b c d : Char} (ha : (a == ':') = false)
    (hb : (b == ':') = false) (hc : (c == ':') = false) (hd : (d == ':') = false) :
    splitOnChar ':' [a, b, ':', c, d] = [[a, b], [c, d]] := by
  simp [splitOnChar, ha, hb, hc, hd]

theorem digitChar_two : digitChar 2 = '2' := rfl

theorem normalizeTime_one_digit {h m : Nat} (hh : h ≤ 9) (hm : m ≤ 59) :
    normalizeTime (String.mk ([digitChar h] ++ ':' :: twoDigits m))
      = some (String.mk (twoDigits h ++ ':' :: twoDigits m)) := by
  have hm1 : m / 10 ≤ 5 := by omega
  have hm2 : m % 10 ≤ 9 := by omega
  have htest : timeRegexTest [digitChar h, ':', digitChar (m / 10), digitChar (m % 10)]
      = true := by
    simp [timeRegexTest, isDigitCh_digitChar hh, isMinuteTensCh_digitChar hm1,
      isDigitCh_digitChar hm2]
  have e1 : h / 10 = 0 := by omega
  have e2 : h % 10 = h := by omega
  show normalizeTime (String.mk [digitChar h, ':', digitChar (m / 10), digitChar (m % 10)])
      = some (String.mk (twoDigits h ++ ':' :: twoDigits m))
  simp only [normalizeTime, stringMk_data, htest, if_true]
  rw [splitOnChar_colon_single (digitChar_beq_colon h) (digitChar_beq_colon (m / 10))
    (digitChar_beq_colon (m % 10))]
  show some (String.mk
      (padStart2 [digitChar h] ++ ':' :: [digitChar (m / 10), digitChar (m % 10)]))
    = some (String.mk (twoDigits h ++ ':' :: twoDigits m))
  rw [show padStart2 [digitChar h] = ['0', digitChar h] from rfl,
    show twoDigits h = [digitChar (h / 10), digitChar (h % 10)] from rfl, e1, e2]
  rfl

theorem normalizeTime_two_digit {h m : Nat} (hh : h ≤ 23) (hm : m ≤ 59) :
    normalizeTime (String.mk (twoDigits h ++ ':' :: twoDigits m))
      = some (String.mk (twoDigits h ++ ':' :: twoDigits m)) := by
  have hm1 : m / 10 ≤ 5 := by omega
  have hm2 : m % 10 ≤ 9 := by omega
  have htest : timeRegexTest [digitChar (h / 10), digitChar (h % 10), ':',
      digitChar (m / 10), digitChar (m % 10)] = true := by
    rcases Nat.lt_or_ge h 20 with h20 | h20
    · have h1 : h / 10 ≤ 1 := by omega
      have h2 : h % 10 ≤ 9 := by omega
      simp [timeRegexTest, isZeroOneCh_digitChar h1, isDigitCh_digitChar h2,
        isMinuteTensCh_digitChar hm1, isDigitCh_digitChar hm2]
    · have h1 : h / 10 = 2 := by omega
      have h2 : h % 10 ≤ 3 := by omega
      simp [timeRegexTest, h1, digitChar_two, isZeroToThreeCh_digitChar h2,
        isMinuteTensCh_digitChar hm1, isDigitCh_digitChar hm2]
  show normalizeTime (String.mk [digitChar (h / 10), digitChar (h % 10), ':',
      digitChar (m / 10), digitChar (m % 10)])
    = some (String.mk (twoDigits h ++ ':' :: twoDigits m))
  simp only [normalizeTime, stringMk_data, htest, if_true]
  rw [splitOnChar_colon_double (digitChar_beq_colon (h / 10)) (digitChar_beq_colon (h % 10))
    (digitChar_beq_colon (m / 10)) (digitChar_beq_colon (m % 10))]
  rfl

theorem timeRegexTest_shape {l : List Char} (ht : timeRegexTest l = true) :
    ∃ h m, h ≤ 23 ∧ m ≤ 59 ∧
      (l = hourChars h ++ ':' :: twoDigits m ∨ l = twoDigits h ++ ':' :: twoDigits m) := by
  rcases l with _ | ⟨c1, _ | ⟨c2, _ | ⟨c3, _ | ⟨c4, _ | ⟨c5, _ | ⟨c6, rest⟩⟩⟩⟩⟩⟩
  · simp [timeRegexTest] at ht
  · simp [timeRegexTest] at ht
  · simp [timeRegexTest] at ht
  · simp [timeRegexTest] at ht
  · -- four characters: single digit hour
    simp only [timeRegexTest, Bool.and_eq_true, beq_iff_eq] at ht
    obtain ⟨⟨⟨hc, hh⟩, hm1⟩, hm2⟩ := ht
    subst hc
    obtain ⟨dh, hdh, rfl⟩ := isDigitCh_elim hh
    obtain ⟨d1, hd1, rfl⟩ := isMinuteTensCh_elim hm1
    obtain ⟨d2, hd2, rfl⟩ := isDigitCh_elim hm2
    have e1 : (d1 * 10 + d2) / 10 = d1 := by omega
    have e2 : (d1 * 10 + d2) % 10 = d2 := by omega
    exact ⟨dh, d1 * 10 + d2, by omega, by omega,
      Or.inl (by simp [hourChars, twoDigits, e1, e2, show dh < 10 by omega])⟩
  · -- five characters: two digit hour
    simp only [timeRegexTest, Bool.and_eq_true, Bool.or_eq_true, beq_iff_eq] at ht
    obtain ⟨⟨⟨hc, hA⟩, hm1⟩, hm2⟩ := ht
    subst hc
    obtain ⟨d1, hd1, rfl⟩ := isMinuteTensCh_elim hm1
    obtain ⟨d2, hd2, rfl⟩ := isDigitCh_elim hm2
    have em1 : (d1 * 10 + d2) / 10 = d1 := by omega
    have em2 : (d1 * 10 + d2) % 10 = d2 := by omega
    rcases hA with ⟨hz, hd⟩ | ⟨h2, hq⟩
    · obtain ⟨a1, ha1, rfl⟩ := isZeroOneCh_elim hz
      obtain ⟨a2, ha2, rfl⟩ := isDigitCh_elim hd
      have f1 : (a1 * 10 + a2) / 10 = a1 := by omega
      have f2 : (a1 * 10 + a2) % 10 = a2 := by omega
      exact ⟨a1 * 10 + a2, d1 * 10 + d2, by omega, by omega,
        Or.inr (by simp [twoDigits, f1, f2, em1, em2])⟩
    · subst h2
      obtain ⟨a2, ha2, rfl⟩ := isZeroToThreeCh_elim hq
      have f1 : (20 + a2) / 10 = 2 := by omega
      have f2 : (20 + a2) % 10 = a2 := by omega
      exact ⟨20 + a2, d1 * 10 + d2, by omega, by omega,
        Or.inr (by simp [twoDigits, f1, f2, em1, em2, digitChar])⟩
  · simp [timeRegexTest] at ht

/-- C4: every time input of the form H:MM or HH:MM with hour 0 to 23 and a
two digit minute 00 to 59 passes validation and is re-stored with the hour
zero padded to two digits; conversely every input that is not rejected is of
exactly that form, so every input whose hour lies outside 0 to 23 (for
example 24:00) fails validation. -/
theorem c4_time_normalization :
    (∀ h m : Nat, h ≤ 23 → m ≤ 59 →
      normalizeTime (String.mk (hourChars h ++ ':' :: twoDigits m))
          = some (String.mk (twoDigits h ++ ':' :: twoDigits m)) ∧
        normalizeTime (String.mk (twoDigits h ++ ':' :: twoDigits m))
          = some (String.mk (twoDigits h ++ ':' :: twoDigits m))) ∧
    (∀ s : String, normalizeTime s ≠ none →
      ∃ h m : Nat, h ≤ 23 ∧ m ≤ 59 ∧
        (s.data = hourChars h ++ ':' :: twoDigits m ∨
         s.data = twoDigits h ++ ':' :: twoDigits m)) := by
  constructor
  · intro h m hh hm
    constructor
    · rcases Nat.lt_or_ge h 10 with h10 | h10
      · rw [show hourChars h = [digitChar h] from by simp [hourChars, h10]]
        exact normalizeTime_one_digit (by omega) hm
      · rw [show hourChars h = twoDigits h from by simp [hourChars]; omega]
        exact normalizeTime_two_digit hh hm
    · exact normalizeTime_two_digit hh hm
  · intro s hs
    have ht : timeRegexTest s.data = true := by
      by_contra hf
      apply hs
      simp [normalizeTime, hf]
    exact timeRegexTest_shape ht

theorem c4_witness :
    normalizeTime "9:05" = some "09:05" ∧
    (∃ h m : Nat, h ≤ 23 ∧ m ≤ 59 ∧
      (("9:05" : String).data = hourChars h ++ ':' :: twoDigits m ∨
       ("9:05" : String).data = twoDigits h ++ ':' :: twoDigits m)) := by
  constructor
  · have h := (c4_time_normalization.1 9 5 (by omega) (by omega)).1
    rw [show String.mk (hourChars 9 ++ ':' :: twoDigits 5) = "9:05" from by decide,
      show String.mk (twoDigits 9 ++ ':' :: twoDigits 5) = "09:05" from by decide] at h
    exact h
  · exact c4_time_normalization.2 "9:05" (by decide)

/-! ### Date validation lemmas -/

theorem string_eq_of_data : ∀ {s t : String}, s.data = t.data → s = t
  | ⟨_⟩, ⟨_⟩, rfl => rfl

theorem monthCond_elim {m1 m2 : Char} (h : monthCond m1 m2 = true) :
    ∃ a b, a ≤ 9 ∧ b ≤ 9 ∧ m1 = digitChar a ∧ m2 = digitChar b ∧
      1 ≤ a * 10 + b ∧ a * 10 + b ≤ 12 := by
  simp only [monthCond, Bool.or_eq_true, Bool.and_eq_true, beq_iff_eq] at h
  rcases h with ⟨h1, h2⟩ | ⟨h1, h2⟩
  · obtain ⟨b, hb1, hb9, rfl⟩ := isNonzeroDigitCh_elim h2
    exact ⟨0, b, by omega, by omega, h1, rfl, by omega, by omega⟩
  · obtain ⟨b, hb2, rfl⟩ := isZeroToTwoCh_elim h2
    exact ⟨1, b, by omega, by omega, h1, rfl, by omega, by omega⟩

theorem dayCond_elim {d1 d2 : Char} (h : dayCond d1 d2 = true) :
    ∃ a b, a ≤ 9 ∧ b ≤ 9 ∧ d1 = digitChar a ∧ d2 = digitChar b ∧
      1 ≤ a * 10 + b ∧ a * 10 + b ≤ 31 := by
  simp only [dayCond, Bool.or_eq_true, Bool.and_eq_true, beq_iff_eq] at h
  rcases h with (⟨h1, h2⟩ | ⟨h1, h2⟩) | ⟨h1, h2⟩
  · obtain ⟨b, hb1, hb9, rfl⟩ := isNonzeroDigitCh_elim h2
    exact ⟨0, b, by omega, by omega, h1, rfl, by omega, by omega⟩
  · obtain ⟨a, ha1, ha2, rfl⟩ := isOneTwoCh_elim h1
    obtain ⟨b, hb9, rfl⟩ := isDigitCh_elim h2
    exact ⟨a, b, by omega, by omega, rfl, rfl, by omega, by omega⟩
  · obtain ⟨b, hb1, rfl⟩ := isZeroOneCh_elim h2
    exact ⟨3, b, by omega, by omega, h1, rfl, by omega, by omega⟩

theorem dateRegexParse_shape : ∀ {l : List Char} {y m d : Nat},
    dateRegexParse l = some (y, m, d) →
    1 ≤ m ∧ m ≤ 12 ∧ 1 ≤ d ∧ d ≤ 31 ∧ y ≤ 9999 ∧ l = (renderDate y m d).data := by
  intro l y m d hp
  rcases l with _|⟨a1,_|⟨a2,_|⟨a3,_|⟨a4,_|⟨a5,_|⟨a6,_|⟨a7,_|⟨a8,_|⟨a9,_|⟨a10,rest⟩⟩⟩⟩⟩⟩⟩⟩⟩⟩
  · simp [dateRegexParse] at hp
  · simp [dateRegexParse] at hp
  · simp [dateRegexParse] at hp
  · simp [dateRegexParse] at hp
  · simp [dateRegexParse] at hp
  · simp [dateRegexParse] at hp
  · simp [dateRegexParse] at hp
  · simp [dateRegexParse] at hp
  · simp [dateRegexParse] at hp
  · simp [dateRegexParse] at hp
  rcases rest with _ | ⟨a11, rest⟩
  case cons.cons => simp [dateRegexParse] at hp
  simp only [dateRegexParse] at hp
  split at hp
  case isTrue hcond =>
    simp only [Option.some.injEq, Prod.mk.injEq] at hp
    obtain ⟨hy, hm, hd⟩ := hp
    simp only [Bool.and_eq_true, beq_iff_eq] at hcond
    obtain ⟨⟨⟨⟨⟨⟨⟨hs1, hs2⟩, hy1⟩, hy2⟩, hy3⟩, hy4⟩, hmc⟩, hdc⟩ := hcond
    subst hs1
    subst hs2
    obtain ⟨v1, hv1, rfl⟩ := isDigitCh_elim hy1
    obtain ⟨v2, hv2, rfl⟩ := isDigitCh_elim hy2
    obtain ⟨v3, hv3, rfl⟩ := isDigitCh_elim hy3
    obtain ⟨v4, hv4, rfl⟩ := isDigitCh_elim hy4
    obtain ⟨ma, mb, hma, hmb, rfl, rfl, hmlo, hmhi⟩ := monthCond_elim hmc
    obtain ⟨da, db, hda, hdb, rfl, rfl, hdlo, hdhi⟩ := dayCond_elim hdc
    rw [digitVal_digitChar hv1, digitVal_digitChar hv2, digitVal_digitChar hv3,
      digitVal_digitChar hv4] at hy
    rw [digitVal_digitChar hma, digitVal_digitChar hmb] at hm
    rw [digitVal_digitChar hda, digitVal_digitChar hdb] at hd
    subst hy
    subst hm
    subst hd
    refine ⟨by omega, by omega, by omega, by omega, by omega, ?_⟩
    have e1 : (v1 * 1000 + v2 * 100 + v3 * 10 + v4) / 1000 % 10 = v1 := by omega
    have e2 : (v1 * 1000 + v2 * 100 + v3 * 10 + v4) / 100 % 10 = v2 := by omega
    have e3 : (v1 * 1000 + v2 * 100 + v3 * 10 + v4) / 10 % 10 = v3 := by omega
    have e4 : (v1 * 1000 + v2 * 100 + v3 * 10 + v4) % 10 = v4 := by omega
    have e5 : (ma * 10 + mb) / 10 = ma := by omega
    have e6 : (ma * 10 + mb) % 10 = mb := by omega
    have e7 : (da * 10 + db) / 10 = da := by omega
    have e8 : (da * 10 + db) % 10 = db := by omega
    simp [renderDate, twoDigits, stringMk_data, e1, e2, e3, e4, e5, e6, e7, e8]
  case isFalse => simp at hp

theorem utcReconstruct_first (fy m d : Nat) :
    (utcReconstruct fy m d).1 = fy ∨ (utcReconstruct fy m d).1 = fy + 1 := by
  unfold utcReconstruct
  split
  · exact Or.inl rfl
  · split
    · exact Or.inr rfl
    · exact Or.inl rfl

theorem normalizeDate_low_year {s : String} {y m d : Nat}
    (hp : dateRegexParse s.data = some (y, m, d)) (hy : y ≤ 99) :
    normalizeDate s = none := by
  unfold normalizeDate
  rw [hp]
  show (if (utcReconstruct (utcFullYear y) m d).1 = y ∧
          (utcReconstruct (utcFullYear y) m d).2.1 = m ∧
          (utcReconstruct (utcFullYear y) m d).2.2 = d
        then some s else none) = none
  rw [show utcFullYear y = 1900 + y from by unfold utcFullYear; rw [if_pos hy]]
  have hnc : ¬((utcReconstruct (1900 + y) m d).1 = y ∧
      (utcReconstruct (1900 + y) m d).2.1 = m ∧
      (utcReconstruct (1900 + y) m d).2.2 = d) := by
    rintro ⟨h1, -, -⟩
    rcases utcReconstruct_first (1900 + y) m d with hf | hf <;> omega
  rw [if_neg hnc]

theorem normalizeDate_bad_day {s : String} {y m d : Nat}
    (hp : dateRegexParse s.data = some (y, m, d)) (hday : daysInMonth y m < d) :
    normalizeDate s = none := by
  obtain ⟨hm1, hm12, hd1, hd31, hy9999, -⟩ := dateRegexParse_shape hp
  rcases Nat.lt_or_ge y 100 with hy | hy
  · exact normalizeDate_low_year hp (by omega)
  · have hfy : utcFullYear y = y := by unfold utcFullYear; rw [if_neg (by omega)]
    have hm12ne : m ≠ 12 := by
      intro he
      rw [he] at hday
      have h31 : daysInMonth y 12 = 31 := rfl
      omega
    unfold normalizeDate
    rw [hp]
    show (if (utcReconstruct (utcFullYear y) m d).1 = y ∧
            (utcReconstruct (utcFullYear y) m d).2.1 = m ∧
            (utcReconstruct (utcFullYear y) m d).2.2 = d
          then some s else none) = none
    rw [hfy]
    have hrec : utcReconstruct y m d = (y, m + 1, d - daysInMonth y m) := by
      unfold utcReconstruct
      rw [if_neg (by omega), if_neg hm12ne]
    have hnc : ¬((y, m + 1, d - daysInMonth y m).1 = y ∧
        (y, m + 1, d - daysInMonth y m).2.1 = m ∧
        (y, m + 1, d - daysInMonth y m).2.2 = d) := by
      rintro ⟨-, h2, -⟩
      have h2n : m + 1 = m := h2
      omega
    rw [hrec, if_neg hnc]

theorem normalizeDate_accepts {s : String} {y m d : Nat}
    (hp : dateRegexParse s.data = some (y, m, d)) (hy : 100 ≤ y)
    (hday : d ≤ daysInMonth y m) :
    normalizeDate s = some s := by
  have hfy : utcFullYear y = y := by unfold utcFullYear; rw [if_neg (by omega)]
  unfold normalizeDate
  rw [hp]
  show (if (utcReconstruct (utcFullYear y) m d).1 = y ∧
          (utcReconstruct (utcFullYear y) m d).2.1 = m ∧
          (utcReconstruct (utcFullYear y) m d).2.2 = d
        then some s else none) = some s
  rw [hfy, show utcReconstruct y m d = (y, m, d) from by unfold utcReconstruct; rw [if_pos hday],
    if_pos ⟨rfl, rfl, rfl⟩]

/-- C5 counterexample: the input 0099-01-01 matches the syntactic pattern and
denotes a real calendar date (January 1 of year 99, day 1 is within the month
length), yet normalization rejects it: the UTC reconstruction maps year
arguments 0 to 99 to 1900 plus the year, so the comparison fails. -/
theorem c5_counterexample :
    dateRegexParse ("0099-01-01" : String).data = some (99, 1, 1) ∧
    1 ≤ daysInMonth 99 1 ∧
    normalizeDate "0099-01-01" = none := by
  decide

/-- C5 amended: for every input matching the syntactic YYYY-MM-DD pattern,
(a) if the day exceeds the month length the input is rejected; (b) if the
year component is at most 99 the input is rejected even when it denotes a
real calendar date, because the UTC reconstruction maps such years to 1900
plus the year; (c) if the year is at least 100 and the day is within the
month length, the canonical matched string is re-stored unchanged; and (d)
every parsed input has month 1 to 12, day 1 to 31, year at most 9999 and is
exactly the canonical rendering of its components. -/
theorem c5_date_validation :
    (∀ (s : String) (y m d : Nat), dateRegexParse s.data = some (y, m, d) →
      daysInMonth y m < d → normalizeDate s = none) ∧
    (∀ (s : String) (y m d : Nat), dateRegexParse s.data = some (y, m, d) →
      y ≤ 99 → normalizeDate s = none) ∧
    (∀ (s : String) (y m d : Nat), dateRegexParse s.data = some (y, m, d) →
      100 ≤ y → d ≤ daysInMonth y m → normalizeDate s = some s) ∧
    (∀ (s : String) (y m d : Nat), dateRegexParse s.data = some (y, m, d) →
      1 ≤ m ∧ m ≤ 12 ∧ 1 ≤ d ∧ d ≤ 31 ∧ y ≤ 9999 ∧ s = renderDate y m d) := by
  refine ⟨?_, ?_, ?_, ?_⟩
  · intro s y m d hp hday
    exact normalizeDate_bad_day hp hday
  · intro s y m d hp hy
    exact normalizeDate_low_year hp hy
  · intro s y m d hp hy hday
    exact normalizeDate_accepts hp hy hday
  · intro s y m d hp
    obtain ⟨h1, h2, h3, h4, h5, h6⟩ := dateRegexParse_shape hp
    exact ⟨h1, h2, h3, h4, h5, string_eq_of_data h6⟩

theorem c5_witness :
    normalizeDate "2023-02-30" = none ∧
    normalizeDate "2023-04-31" = none ∧
    normalizeDate "0050-06-15" = none ∧
    normalizeDate "2026-03-10" = some "2026-03-10" := by
  refine ⟨?_, ?_, ?_, ?_⟩
  · exact c5_date_validation.1 "2023-02-30" 2023 2 30 (by decide) (by decide)
  · exact c5_date_validation.1 "2023-04-31" 2023 4 31 (by decide) (by decide)
  · exact c5_date_validation.2.1 "0050-06-15" 50 6 15 (by decide) (by decide)
  · exact c5_date_validation.2.2.1 "2026-03-10" 2026 3 10 (by decide) (by decide) (by decide)

/-! ### Comma separated list coercion (events POST route)

Model of the agenda and tags coercion: when the submitted field value
is a string, the route trims it, maps the empty trim to the empty
list, and otherwise splits on commas, trims each piece and drops the
empty pieces. -/

/-- The coercion performed by the POST route on a string valued agenda
or tags field. -/
def coerceListField (s : String) : List String :=
  if (jsTrim s.data).isEmpty then []
  else (((splitOnChar ',' (jsTrim s.data)).map jsTrim).filter
    (fun t => !t.isEmpty)).map String.mk

/-- The coercion as the specification words it: split the submitted
string on commas, trim whitespace from each segment, drop the empty
segments. -/
def coerceListFieldSpec (s : String) : List String :=
  (((splitOnChar ',' s.data).map jsTrim).filter (fun t => !t.isEmpty)).map String.mk

theorem splitOnChar_ne_nil (sep : Char) (l : List Char) : splitOnChar sep l ≠ [] := by
  cases l with
  | nil => simp [splitOnChar]
  | cons c cs =>
    by_cases h : (c == sep) = true
    · simp [splitOnChar, h]
    · simp only [splitOnChar, Bool.not_eq_true] at h ⊢
      rw [if_neg (by simp [h])]
      cases splitOnChar sep cs <;> simp

theorem jsIsSpace_ne_comma {c : Char} (h : jsIsSpace c = true) : (c == ',') = false := by
  simp only [jsIsSpace, Bool.or_eq_true, beq_iff_eq] at h
  rcases h with ((((h|h)|h)|h)|h)|h <;> subst h <;> decide

theorem jsTrim_cons_space {c : Char} (h : jsIsSpace c = true) (x : List Char) :
    jsTrim (c :: x) = jsTrim x := by
  unfold jsTrim
  rw [List.dropWhile_cons, if_pos h]

theorem jsTrim_append_space {c : Char} (h : jsIsSpace c = true) (x : List Char) :
    jsTrim (x ++ [c]) = jsTrim x := by
  unfold jsTrim
  rw [List.dropWhile_append]
  by_cases hx : (List.dropWhile jsIsSpace x).isEmpty
  · rw [if_pos hx]
    rw [List.isEmpty_iff] at hx
    rw [hx]
    simp [List.dropWhile_cons, h]
  · rw [if_neg hx]
    rw [List.reverse_append]
    simp only [List.reverse_cons, List.reverse_nil, List.nil_append, List.singleton_append]
    rw [List.dropWhile_cons, if_pos h]

theorem getLastD_indep (t : List Char) (ts : List (List Char)) (a b : List Char) :
    (t :: ts).getLastD a = (t :: ts).getLastD b := by
  rw [List.getLastD_cons, List.getLastD_cons]

theorem dropLast_append_getLastD : ∀ (S : List (List Char)), S ≠ [] →
    S.dropLast ++ [S.getLastD []] = S
  | [s], _ => rfl
  | s :: t :: ts, _ => by
    have ih := dropLast_append_getLastD (t :: ts) (by simp)
    simp only [List.dropLast_cons₂, List.cons_append]
    rw [List.getLastD_cons, getLastD_indep t ts s [], ih]

theorem splitOnChar_cons_ne {sep a : Char} (ha : ¬((a == sep) = true)) (l : List Char)
    {seg : List Char} {rest : List (List Char)} (hsr : splitOnChar sep l = seg :: rest) :
    splitOnChar sep (a :: l) = (a :: seg) :: rest := by
  simp only [splitOnChar, if_neg ha, hsr]

theorem splitOnChar_append_single {sep c : Char} (hc : (c == sep) = false) :
    ∀ l : List Char, splitOnChar sep (l ++ [c])
      = (splitOnChar sep l).dropLast ++ [(splitOnChar sep l).getLastD [] ++ [c]]
  | [] => by
    simp only [List.nil_append, splitOnChar]
    rw [if_neg (by simp [hc])]
    rfl
  | a :: as => by
    have ih := splitOnChar_append_single hc as
    obtain ⟨seg, rest, hsr⟩ : ∃ seg rest, splitOnChar sep as = seg :: rest := by
      cases hS : splitOnChar sep as with
      | nil => exact absurd hS (splitOnChar_ne_nil sep as)
      | cons seg rest => exact ⟨seg, rest, rfl⟩
    by_cases ha : (a == sep) = true
    · rw [show (a :: as) ++ [c] = a :: (as ++ [c]) from rfl]
      rw [show splitOnChar sep (a :: (as ++ [c])) = [] :: splitOnChar sep (as ++ [c]) from by
        simp only [splitOnChar, if_pos ha]]
      rw [show splitOnChar sep (a :: as) = [] :: splitOnChar sep as from by
        simp only [splitOnChar, if_pos ha]]
      rw [ih, hsr]
      simp only [List.dropLast_cons₂, List.cons_append, List.getLastD_cons]
    · rcases rest with _ | ⟨r, rs⟩
      · have hsplit : splitOnChar sep (as ++ [c]) = (seg ++ [c]) :: [] := by
          rw [ih, hsr]
          rfl
        rw [show (a :: as) ++ [c] = a :: (as ++ [c]) from rfl,
          splitOnChar_cons_ne ha (as ++ [c]) hsplit,
          splitOnChar_cons_ne ha as hsr]
        rfl
      · have hsplit : splitOnChar sep (as ++ [c])
            = (seg :: ((r :: rs).dropLast ++ [(r :: rs).getLastD seg ++ [c]])) := by
          rw [ih, hsr]
          simp only [List.dropLast_cons₂, List.cons_append, List.getLastD_cons]
        rw [show (a :: as) ++ [c] = a :: (as ++ [c]) from rfl,
          splitOnChar_cons_ne ha (as ++ [c]) hsplit,
          splitOnChar_cons_ne ha as hsr]
        simp only [List.dropLast_cons₂, List.cons_append, List.getLastD_cons]

theorem map_jsTrim_split_dropWhile :
    ∀ l : List Char, ((splitOnChar ',' (l.dropWhile jsIsSpace)).map jsTrim)
      = ((splitOnChar ',' l).map jsTrim)
  | [] => rfl
  | c :: cs => by
    obtain ⟨seg, rest, hsr⟩ : ∃ seg rest, splitOnChar ',' cs = seg :: rest := by
      cases hS : splitOnChar ',' cs with
      | nil => exact absurd hS (splitOnChar_ne_nil ',' cs)
      | cons seg rest => exact ⟨seg, rest, rfl⟩
    by_cases hsp : jsIsSpace c = true
    · have hcomma : ¬((c == ',') = true) := by simp [jsIsSpace_ne_comma hsp]
      rw [List.dropWhile_cons, if_pos hsp, map_jsTrim_split_dropWhile cs,
        splitOnChar_cons_ne hcomma cs hsr, hsr]
      simp only [List.map_cons]
      rw [jsTrim_cons_space hsp]
    · rw [List.dropWhile_cons, if_neg hsp]

theorem map_jsTrim_split_dropTrailing :
    ∀ r : List Char, ((splitOnChar ',' ((r.dropWhile jsIsSpace).reverse)).map jsTrim)
      = ((splitOnChar ',' r.reverse).map jsTrim)
  | [] => rfl
  | c :: rs => by
    by_cases hsp : jsIsSpace c = true
    · rw [List.dropWhile_cons, if_pos hsp, map_jsTrim_split_dropTrailing rs]
      rw [show (c :: rs).reverse = rs.reverse ++ [c] from by simp]
      rw [splitOnChar_append_single (jsIsSpace_ne_comma hsp) rs.reverse]
      obtain ⟨seg, rest, hsr⟩ : ∃ seg rest, splitOnChar ',' rs.reverse = seg :: rest := by
        cases hS : splitOnChar ',' rs.reverse with
        | nil => exact absurd hS (splitOnChar_ne_nil ',' rs.reverse)
        | cons seg rest => exact ⟨seg, rest, rfl⟩
      rw [hsr, List.map_append]
      simp only [List.map_cons, List.map_nil]
      rw [jsTrim_append_space hsp ((seg :: rest).getLastD [])]
      rw [show [jsTrim ((seg :: rest).getLastD [])]
          = List.map jsTrim [(seg :: rest).getLastD []] from rfl]
      rw [← List.map_append, dropLast_append_getLastD (seg :: rest) (by simp),
        List.map_cons]
    · rw [List.dropWhile_cons, if_neg hsp]

theorem splitOnChar_no_sep {sep : Char} :
    ∀ l : List Char, (∀ c ∈ l, ¬((c == sep) = true)) → splitOnChar sep l = [l]
  | [], _ => rfl
  | a :: as, h => by
    have ha := h a (by simp)
    have hrec := splitOnChar_no_sep as (fun c hc => h c (List.mem_cons_of_mem a hc))
    rw [splitOnChar_cons_ne ha as hrec]

theorem jsTrim_eq_nil_all_space {l : List Char} (h : jsTrim l = []) :
    ∀ c ∈ l, jsIsSpace c = true := by
  intro c hc
  have h1 : (l.dropWhile jsIsSpace).reverse.dropWhile jsIsSpace = [] := by
    have := congrArg List.reverse h
    simpa [jsTrim] using this
  have h2 : ∀ x ∈ (l.dropWhile jsIsSpace).reverse, jsIsSpace x = true :=
    List.dropWhile_eq_nil_iff.1 h1
  have h3 : ∀ x ∈ l.dropWhile jsIsSpace, jsIsSpace x = true := by
    intro x hx
    exact h2 x (List.mem_reverse.2 hx)
  have h4 : l.takeWhile jsIsSpace ++ l.dropWhile jsIsSpace = l :=
    List.takeWhile_append_dropWhile jsIsSpace l
  rw [← h4] at hc
  rcases List.mem_append.1 hc with hx | hx
  · exact List.mem_takeWhile_imp hx
  · exact h3 c hx

/-- C6: the coercion the POST route applies to a string valued agenda or
tags field equals splitting the submitted string on commas, trimming
whitespace from each segment and dropping the empty segments; in particular
the input "a, b ,,c" is coerced to ["a", "b", "c"]. -/
theorem c6_list_coercion :
    (∀ s : String, coerceListField s = coerceListFieldSpec s) ∧
    coerceListField "a, b ,,c" = ["a", "b", "c"] := by
  constructor
  · intro s
    unfold coerceListField coerceListFieldSpec
    by_cases hempty : (jsTrim s.data).isEmpty = true
    · rw [if_pos hempty]
      have hnil : jsTrim s.data = [] := List.isEmpty_iff.1 hempty
      have hall := jsTrim_eq_nil_all_space hnil
      have hnos : ∀ c ∈ s.data, ¬((c == ',') = true) := by
        intro c hc
        simp [jsIsSpace_ne_comma (hall c hc)]
      rw [splitOnChar_no_sep s.data hnos]
      simp [hnil]
    · rw [if_neg hempty]
      have h1 := map_jsTrim_split_dropTrailing (s.data.dropWhile jsIsSpace).reverse
      rw [List.reverse_reverse] at h1
      have key : (splitOnChar ',' (jsTrim s.data)).map jsTrim
          = (splitOnChar ',' s.data).map jsTrim :=
        h1.trans (map_jsTrim_split_dropWhile s.data)
      rw [key]
  · decide

/-! ### Connection cache (dbConnect)

Model of the dbConnect helper of the connection module.  The module
level cache holds the established connection handle (if any) and the
in-flight promise marker; the outcome the awaited connection promise
settles with is an explicit parameter; the third component of the
result counts the network dials this call initiates, so the absence of
a network attempt is provable. -/

/-- A JS thrown value: an Error carrying a message, or a non Error value. -/
inductive JsThrown where
  | err (message : String)
  | nonError
deriving DecidableEq

/-- The module level mongoose cache: the established connection handle
and the in-flight promise marker. -/
structure MongooseCache where
  conn : Option Nat
  promise : Bool
deriving DecidableEq

/-- Boolean substring test on character lists. -/
def containsSub (pat : List Char) : List Char → Bool
  | [] => pat.isEmpty
  | c :: cs => pat.isPrefixOf (c :: cs) || containsSub pat cs

/-- Case insensitive substring test (the i flag of the failure regex). -/
def containsCI (hay pat : String) : Bool :=
  containsSub (pat.data.map Char.toLower) (hay.data.map Char.toLower)

/-- The failure message regex: querySrv, ECONNREFUSED or ENOTFOUND,
case insensitively. -/
def srvPatternTest (msg : String) : Bool :=
  containsCI msg "querySrv" || containsCI msg "ECONNREFUSED" || containsCI msg "ENOTFOUND"

/-- Whether the configured URI uses the SRV form. -/
def usesSrvForm (uri : String) : Bool := "mongodb+srv://".data.isPrefixOf uri.data

/-- Guidance appended when the URI uses the SRV form. -/
def srvExtra : String :=
  "The URI uses mongodb+srv:// — DNS SRV lookup failed. Try a non-SRV connection string or fix DNS/network."

/-- Guidance appended for other matching network failures. -/
def genericExtra : String :=
  "Network error while connecting to MongoDB. Check that the host is reachable and credentials are correct."

/-- The rewrapped message built when the failure matches the SRV or
connection refused patterns. -/
def wrapConnMessage (uri msg : String) : String :=
  "MongoDB connection error: " ++ msg ++ ". " ++
    (if usesSrvForm uri then srvExtra else genericExtra) ++
    " See MONGODB_URI and network settings."

/-- The missing URI configuration error message. -/
def missingUriMessage : String :=
  "Please define the MONGODB_URI environment variable inside .env.local"

/-- Model of dbConnect: fail fatally when the URI is unset (or empty,
matching JS falsiness) before touching the cache or the network; return
a cached connection immediately; otherwise await the promise (dialing
only when no attempt is in flight), caching the handle on success, and
on failure resetting the promise marker and rewrapping errors whose
message matches the DNS or connection refused patterns. -/
def dbConnect (uri : Option String) (cache : MongooseCache)
    (attempt : Except JsThrown Nat) :
    Except JsThrown Nat × MongooseCache × Nat :=
  match uri with
  | none => (Except.error (JsThrown.err missingUriMessage), cache, 0)
  | some u =>
    if u = "" then (Except.error (JsThrown.err missingUriMessage), cache, 0)
    else
      match cache.conn with
      | some c => (Except.ok c, cache, 0)
      | none =>
        let dials := if cache.promise then 0 else 1
        match attempt with
        | Except.ok c => (Except.ok c, ⟨some c, true⟩, dials)
        | Except.error e =>
          match e with
          | JsThrown.err msg =>
            if srvPatternTest msg then
              (Except.error (JsThrown.err (wrapConnMessage u msg)), ⟨none, false⟩, dials)
            else (Except.error e, ⟨none, false⟩, dials)
          | JsThrown.nonError => (Except.error e, ⟨none, false⟩, dials)

/-- C7: with no connection URI configured, every dbConnect call fails with
the configuration error before any network attempt (zero dials), regardless
of the cached state, which is left untouched. -/
theorem c7_missing_uri (cache : MongooseCache) (attempt : Except JsThrown Nat) :
    dbConnect none cache attempt
      = (Except.error (JsThrown.err missingUriMessage), cache, 0) := rfl

theorem isPrefixOf_self_append : ∀ (l r : List Char), l.isPrefixOf (l ++ r) = true
  | [], r => by cases r <;> rfl
  | c :: cs, r => by simp [List.isPrefixOf, isPrefixOf_self_append cs r]

theorem containsSub_here : ∀ (pat r : List Char), containsSub pat (pat ++ r) = true
  | [], [] => rfl
  | [], c :: cs => by simp [containsSub, List.isPrefixOf]
  | p :: ps, r => by
    have h := isPrefixOf_self_append (p :: ps) r
    simp only [List.cons_append] at h
    simp only [List.cons_append, containsSub]
    simp [h]

theorem containsSub_append_left :
    ∀ (x : List Char) {pat l : List Char}, containsSub pat l = true →
      containsSub pat (x ++ l) = true
  | [], _, _, h => h
  | c :: cs, pat, l, h => by
    have ih := containsSub_append_left cs h
    simp only [List.cons_append, containsSub]
    simp [ih]

theorem wrapConnMessage_data (u msg : String) :
    (wrapConnMessage u msg).data
      = ("MongoDB connection error: " : String).data ++ (msg.data ++
        ((". " : String).data ++
          ((if usesSrvForm u then srvExtra else genericExtra).data ++
            (" See MONGODB_URI and network settings." : String).data))) := by
  simp [wrapConnMessage, String.data_append, List.append_assoc]

/-- C8: when the awaited connection attempt fails (URI configured and no
established connection), dbConnect clears the in-flight promise marker so
the next call may retry, and propagates an error: an Error whose message
does not match the DNS or connection refused patterns, and any non Error
value, are rethrown unchanged; an Error whose message matches is replaced
by a distinct rewrapped error whose message still contains the original
text plus guidance, the SRV specific advice when the URI uses the
mongodb+srv:// form and the generic host or credentials advice otherwise. -/
theorem c8_connection_failure (u : String) (cache : MongooseCache) (e : JsThrown)
    (hu : ¬(u = "")) (hconn : cache.conn = none) :
    ((dbConnect (some u) cache (Except.error e)).2.1.promise = false ∧
      (dbConnect (some u) cache (Except.error e)).2.1.conn = none) ∧
    (∀ msg, e = JsThrown.err msg → srvPatternTest msg = false →
      (dbConnect (some u) cache (Except.error e)).1 = Except.error e) ∧
    (e = JsThrown.nonError →
      (dbConnect (some u) cache (Except.error e)).1 = Except.error e) ∧
    (∀ msg, e = JsThrown.err msg → srvPatternTest msg = true →
      (dbConnect (some u) cache (Except.error e)).1
          = Except.error (JsThrown.err (wrapConnMessage u msg)) ∧
        containsSub msg.data (wrapConnMessage u msg).data = true ∧
        (usesSrvForm u = true →
          containsSub srvExtra.data (wrapConnMessage u msg).data = true) ∧
        (usesSrvForm u = false →
          containsSub genericExtra.data (wrapConnMessage u msg).data = true) ∧
        wrapConnMessage u msg ≠ msg) := by
  have hredT : ∀ msg, srvPatternTest msg = true →
      dbConnect (some u) cache (Except.error (JsThrown.err msg))
        = (Except.error (JsThrown.err (wrapConnMessage u msg)), ⟨none, false⟩,
            if cache.promise then 0 else 1) := by
    intro msg hsrv
    simp [dbConnect, hu, hconn, hsrv]
  have hredF : ∀ msg, srvPatternTest msg = false →
      dbConnect (some u) cache (Except.error (JsThrown.err msg))
        = (Except.error (JsThrown.err msg), ⟨none, false⟩,
            if cache.promise then 0 else 1) := by
    intro msg hsrv
    simp [dbConnect, hu, hconn, hsrv]
  have hredN : dbConnect (some u) cache (Except.error JsThrown.nonError)
      = (Except.error JsThrown.nonError, ⟨none, false⟩,
          if cache.promise then 0 else 1) := by
    simp [dbConnect, hu, hconn]
  refine ⟨?_, ?_, ?_, ?_⟩
  · cases e with
    | err msg =>
      by_cases hsrv : srvPatternTest msg = true
      · rw [hredT msg hsrv]
        exact ⟨rfl, rfl⟩
      · rw [hredF msg (by simpa using hsrv)]
        exact ⟨rfl, rfl⟩
    | nonError =>
      rw [hredN]
      exact ⟨rfl, rfl⟩
  · intro msg hmsg hsrv
    subst hmsg
    rw [hredF msg hsrv]
  · intro hmsg
    subst hmsg
    rw [hredN]
  · intro msg hmsg hsrv
    subst hmsg
    refine ⟨by rw [hredT msg hsrv], ?_, ?_, ?_, ?_⟩
    · rw [wrapConnMessage_data]
      exact containsSub_append_left _ (containsSub_here _ _)
    · intro hform
      rw [wrapConnMessage_data, if_pos hform]
      exact containsSub_append_left _ (containsSub_append_left _
        (containsSub_append_left _ (containsSub_here _ _)))
    · intro hform
      rw [wrapConnMessage_data, if_neg (by simp [hform])]
      exact containsSub_append_left _ (containsSub_append_left _
        (containsSub_append_left _ (containsSub_here _ _)))
    · intro heq
      have hlen : (wrapConnMessage u msg).data.length = msg.data.length := by rw [heq]
      rw [wrapConnMessage_data, List.length_append, List.length_append,
        List.length_append, List.length_append] at hlen
      have hpos : 0 < ("MongoDB connection error: " : String).data.length := by decide
      omega

theorem c8_witness :
    (dbConnect (some "mongodb+srv://x") ⟨none, true⟩
        (Except.error (JsThrown.err "querySrv ECONNREFUSED _mongodb._tcp.x"))).2.1.promise
        = false ∧
    (dbConnect (some "mongodb+srv://x") ⟨none, true⟩
        (Except.error (JsThrown.err "querySrv ECONNREFUSED _mongodb._tcp.x"))).1
        = Except.error (JsThrown.err
            (wrapConnMessage "mongodb+srv://x" "querySrv ECONNREFUSED _mongodb._tcp.x")) ∧
    containsSub ("querySrv ECONNREFUSED _mongodb._tcp.x" : String).data
      (wrapConnMessage "mongodb+srv://x" "querySrv ECONNREFUSED _mongodb._tcp.x").data
      = true := by
  have h := c8_connection_failure "mongodb+srv://x" ⟨none, true⟩
    (JsThrown.err "querySrv ECONNREFUSED _mongodb._tcp.x") (by decide) rfl
  have h4 := h.2.2.2 "querySrv ECONNREFUSED _mongodb._tcp.x" rfl (by decide)
  exact ⟨h.1.1, h4.1, h4.2.1⟩

/-! ### Booking pre-save hook -/

/-- Model of the booking pre-save hook: `modifiedEventId` is the
isModified check on the event reference field, `lookup` is the outcome
of the Event existence query (only awaited when the reference was
modified), and the Bool in the result records whether the lookup ran.
The candidate document passes through as is; the hook never writes to
it. -/
def bookingPreSave {α : Type} (doc : α) (modifiedEventId : Bool)
    (lookup : Except JsThrown Bool) : Except JsThrown α × Bool :=
  if modifiedEventId then
    match lookup with
    | Except.ok true => (Except.ok doc, true)
    | Except.ok false =>
        (Except.error (JsThrown.err "Referenced event does not exist"), true)
    | Except.error (JsThrown.err m) => (Except.error (JsThrown.err m), true)
    | Except.error JsThrown.nonError =>
        (Except.error (JsThrown.err "Failed to validate event reference"), true)
  else (Except.ok doc, false)

/-- C9: the booking validator runs only when the event reference field is
newly set or changed (otherwise the candidate is accepted unchanged and no
lookup is performed); when the referenced Event does not resolve it rejects
with the failure "Referenced event does not exist"; when the existence
check itself throws it rejects with that thrown error itself, or with the
distinct fallback "Failed to validate event reference" for a non Error
value, rather than treating the failure as not found; and on success the
candidate proceeds unmutated. -/
theorem c9_booking_validator {α : Type} (doc : α) :
    (∀ lookup, bookingPreSave doc false lookup = (Except.ok doc, false)) ∧
    bookingPreSave doc true (Except.ok true) = (Except.ok doc, true) ∧
    bookingPreSave doc true (Except.ok false)
      = (Except.error (JsThrown.err "Referenced event does not exist"), true) ∧
    (∀ m, bookingPreSave doc true (Except.error (JsThrown.err m))
      = (Except.error (JsThrown.err m), true)) ∧
    bookingPreSave doc true (Except.error JsThrown.nonError)
      = (Except.error (JsThrown.err "Failed to validate event reference"), true) :=
  ⟨fun _ => rfl, rfl, rfl, fun _ => rfl, rfl⟩

/-! ### POST route test cleanup (frame effect) -/

/-- The configuration read by the POST route. -/
structure Env where
  nodeEnv : Option String
  cleanupTestEvents : Option String

/-- The cleanup condition of the POST route: NODE_ENV equals test, or
CLEANUP_TEST_EVENTS equals the string true. -/
def cleanupFlag (env : Env) : Bool :=
  env.nodeEnv == some "test" || env.cleanupTestEvents == some "true"

/-- Model of the database effect of the POST handler: when the cleanup
condition holds, first delete one Event whose slug is cloud-next-2026
(deleteOne removes the single matching record), then run the creation; the
first component is the assigned slug when creation succeeds, the second
the store afterwards. -/
def postCreateEvent (env : Env) (db : List String) (title : String) :
    Option String × List String :=
  let db1 := if cleanupFlag env then db.erase "cloud-next-2026" else db
  match createEvent db1 title with
  | some (s, dbNext) => (some s, dbNext)
  | none => (none, db1)

theorem postCreateEvent_db (env : Env) (db : List String) (title : String)
    (db1 : List String)
    (hdb1 : (if cleanupFlag env then db.erase "cloud-next-2026" else db) = db1) :
    (∀ s, (postCreateEvent env db title).1 = some s →
      (postCreateEvent env db title).2 = db1 ++ [s]) ∧
    ((postCreateEvent env db title).1 = none →
      (postCreateEvent env db title).2 = db1) := by
  simp only [postCreateEvent]
  rw [hdb1]
  cases hc : createEvent db1 title with
  | none =>
    refine ⟨?_, ?_⟩
    · intro s hs
      simp at hs
    · intro _
      rfl
  | some p =>
    obtain ⟨s0, dbNext⟩ := p
    have hnext : dbNext = db1 ++ [s0] := by
      unfold createEvent at hc
      obtain ⟨slug, hslug, hmap⟩ := Option.map_eq_some'.1 hc
      have h1 : slug = s0 := congrArg Prod.fst hmap
      have h2 : db1 ++ [slug] = dbNext := congrArg Prod.snd hmap
      rw [← h2, h1]
    refine ⟨?_, ?_⟩
    · intro s hs
      simp only [Option.some.injEq] at hs
      rw [← hs]
      exact hnext
    · intro hs
      simp at hs

/-- C10: the public event creation endpoint itself deletes: the cleanup
condition holds exactly when NODE_ENV is test or CLEANUP_TEST_EVENTS is the
string true; under the condition the store passed to creation is the store
with the single cloud-next-2026 record removed (and since slugs are unique,
removing one occurrence leaves none); without the condition nothing is
deleted and every pre-existing record survives the request. -/
theorem c10_cleanup_frame :
    (∀ env : Env, cleanupFlag env = true ↔
      (env.nodeEnv = some "test" ∨ env.cleanupTestEvents = some "true")) ∧
    (∀ (env : Env) (db : List String) (title : String), cleanupFlag env = true →
      (∀ s, (postCreateEvent env db title).1 = some s →
        (postCreateEvent env db title).2 = db.erase "cloud-next-2026" ++ [s]) ∧
      ((postCreateEvent env db title).1 = none →
        (postCreateEvent env db title).2 = db.erase "cloud-next-2026")) ∧
    (∀ db : List String, db.count "cloud-next-2026" ≤ 1 →
      "cloud-next-2026" ∉ db.erase "cloud-next-2026") ∧
    (∀ (env : Env) (db : List String) (title : String), cleanupFlag env = false →
      (∀ s, (postCreateEvent env db title).1 = some s →
        (postCreateEvent env db title).2 = db ++ [s]) ∧
      ((postCreateEvent env db title).1 = none →
        (postCreateEvent env db title).2 = db) ∧
      (∀ x ∈ db, x ∈ (postCreateEvent env db title).2)) := by
  refine ⟨?_, ?_, ?_, ?_⟩
  · intro env
    simp [cleanupFlag]
  · intro env db title hflag
    exact postCreateEvent_db env db title (db.erase "cloud-next-2026") (by rw [hflag]; simp)
  · intro db hcount hmem
    have h1 := List.count_erase_self "cloud-next-2026" db
    have h2 : 0 < (db.erase "cloud-next-2026").count "cloud-next-2026" :=
      List.count_pos_iff.2 hmem
    omega
  · intro env db title hflag
    have h := postCreateEvent_db env db title db (by rw [hflag]; simp)
    refine ⟨h.1, h.2, ?_⟩
    intro x hx
    cases hc : (postCreateEvent env db title).1 with
    | none => rw [h.2 hc]; exact hx
    | some s => rw [h.1 s hc]; exact List.mem_append_left _ hx

theorem c10_witness :
    cleanupFlag ⟨some "test", none⟩ = true ∧
    (postCreateEvent ⟨some "test", none⟩ ["cloud-next-2026"] "Tech Day").1
      = some "tech-day" ∧
    (postCreateEvent ⟨some "test", none⟩ ["cloud-next-2026"] "Tech Day").2
      = ["tech-day"] ∧
    ("cloud-next-2026" : String) ∉
      (["cloud-next-2026"] : List String).erase "cloud-next-2026" := by
  refine ⟨(c10_cleanup_frame.1 ⟨some "test", none⟩).2 (Or.inl rfl), by decide, ?_, ?_⟩
  · have h := (c10_cleanup_frame.2.1 ⟨some "test", none⟩ ["cloud-next-2026"] "Tech Day"
      (by decide)).1 "tech-day" (by decide)
    rw [h]
    decide
  · exact c10_cleanup_frame.2.2.1 ["cloud-next-2026"] (by decide)
